import Mathlib

/-!
Shallow embedding of the enum-registry core of the `ki` repository:
`src/kit/enums.go` (registry, bit-flag codec, EnumValue catalog) and
`src/ki/flags_string.go` (the stringer-generated `Flags` conversion
capability).  Go machine-level details are modelled as follows:

* `int64` ordinals and bit-flag accumulators become `Int` (all claims stay
  far below 2^63, where Go's `int64` arithmetic and Lean's `Int` agree);
* Go maps become association lists: assignment is a shadowing prepend and
  lookup takes the most recent binding, which is observationally equal to
  Go map overwrite-and-lookup;
* `reflect.Type` of an enum type becomes `EnumType`: the short
  package-qualified name together with the stringer-generated conversion
  capability (`String`, `FromString` methods) that the Go code reaches
  through reflection;
* a Go enum value (`interface{}` holding a typed ordinal) becomes `EnumVal`;
* errors become `Option String` (`none` = nil error, `some msg` = non-nil).
-/

/-- Association-list lookup: first (most recent) binding for the key.
Models Go map read. -/
def mapLookup {β : Type} : List (String × β) → String → Option β
  | [], _ => none
  | (k', v) :: rest, k => if k' = k then some v else mapLookup rest k

/-- Association-list insert as a shadowing prepend.  With `mapLookup`
taking the most recent binding this models Go map assignment. -/
def mapInsert {β : Type} (m : List (String × β)) (k : String) (v : β) :
    List (String × β) :=
  (k, v) :: m

/-- Integer-keyed association-list lookup (for `map[int64]string`). -/
def imapLookup {β : Type} : List (Int × β) → Int → Option β
  | [], _ => none
  | (k', v) :: rest, k => if k' = k then some v else imapLookup rest k

/-- `bitflag.Has(bits, i)`: test bit `i` of `bits`.  Modelled from the spec:
the `bitflag` package is part of this repository but not under `src/`; per
the spec, "bit positions 0..N-1 correspond one-to-one with the ordinals",
so `Has` is a single-bit test (`bits & (1 << i) != 0` in Go). -/
def bitflagHas (bits : Int) (i : Nat) : Bool :=
  bits.testBit i

/-- `bitflag.Set(bits, i)`: set bit `i` of `bits`.  Modelled from the spec
like `bitflagHas`: `*bits |= 1 << i` in Go. -/
def bitflagSet (bits : Int) (i : Nat) : Int :=
  Int.lor bits (((1 : Nat) <<< i : Nat) : Int)

/-- A registered enum type as the Go code sees it through reflection: its
short package-qualified name (`ShortTypeName`) and the stringer-generated
conversion capability.  `fromStr old s` returns the receiver's new value
together with the error: the generated `FromString` mutates the receiver
only on success and returns a non-nil error otherwise (see
`src/ki/flags_string.go`).  `hasFromString` models whether
`MethodByName("FromString")` finds the method. -/
structure EnumType where
  name : String
  toStr : Int → String
  fromStr : Int → String → Int × Option String
  hasFromString : Bool

/-- A Go enum value: a typed ordinal (`interface{}` holding e.g.
`TestFlagsN`). -/
structure EnumVal where
  typ : EnumType
  val : Int

/-- `kit.ShortTypeName` (defined outside `src/`): the registry key.  The
model carries the already-computed short name on the `EnumType`. -/
def ShortTypeName (t : EnumType) : String :=
  t.name

/-- `kit.EnumIfaceToInt64`: extract the ordinal from an enum value
(`src/kit/enums.go` lines 237-242). -/
def EnumIfaceToInt64 (eval : EnumVal) : Int :=
  eval.val

/-- `kit.EnumIfaceFromInt64` (`src/kit/enums.go` lines 273-277): a fresh
value of the type set to the given integer. -/
def EnumIfaceFromInt64 (ival : Int) (typ : EnumType) : EnumVal :=
  ⟨typ, ival⟩

/-- `kit.EnumIfaceToString` (`src/kit/enums.go` lines 285-292): dispatch to
the type's `String()` method (`fmt.Stringer`). -/
def EnumIfaceToString (eval : EnumVal) : String :=
  eval.typ.toStr eval.val

/-- `kit.EnumInt64ToString` (`src/kit/enums.go` lines 296-299). -/
def EnumInt64ToString (ival : Int) (typ : EnumType) : String :=
  EnumIfaceToString (EnumIfaceFromInt64 ival typ)

/-! ## The `Flags` stringer, from `src/ki/flags_string.go` -/

/-- `_Flags_name` (`src/ki/flags_string.go` line 12), verbatim. -/
def _Flags_name : String :=
  "IsFieldHasKiFieldsHasNoKiFieldsUpdatingOnlySelfUpdateNodeAddedNodeCopiedNodeMovedNodeDeletedNodeDestroyedChildAddedChildMovedChildDeletedChildrenDeletedFieldUpdatedPropUpdatedFlagsN"

/-- `_Flags_index` (`src/ki/flags_string.go` line 14), verbatim. -/
def _Flags_index : List Nat :=
  [0, 7, 18, 31, 39, 53, 62, 72, 81, 92, 105, 115, 125, 137, 152, 164, 175, 181]

/-- The slice `_Flags_name[_Flags_index[j]:_Flags_index[j+1]]`.  The Go
string is pure ASCII, so Go byte indices coincide with UTF-8 byte
positions. -/
def flagsSlice (j : Nat) : String :=
  _Flags_name.extract ⟨_Flags_index.getD j 0⟩ ⟨_Flags_index.getD (j + 1) 0⟩

/-- `(Flags).String` (`src/ki/flags_string.go` lines 16-21; named
`FlagsString` here because a declaration `Flags.String` would shadow the
`String` type inside its own namespace): out-of-range ordinals get the
`"Flags(<i>)"` fallback, in-range ordinals get their name slice. -/
def FlagsString (i : Int) : String :=
  if i < 0 ∨ ((_Flags_index.length - 1 : Nat) : Int) ≤ i then
    "Flags(" ++ toString i ++ ")"
  else
    flagsSlice i.toNat

/-- `(*Flags).FromString` (`src/ki/flags_string.go` lines 23-31): scan
`j = 0 .. len(_Flags_index)-2` for the first name equal to `s`; on a match
set the receiver to `j` and return nil, otherwise leave the receiver and
return the "not a valid option" error.  The first argument is the
receiver's old value; the result pairs the receiver's new value with the
returned error. -/
def FlagsFromString (i : Int) (s : String) : Int × Option String :=
  match (List.range (_Flags_index.length - 1)).find? (fun j => s = flagsSlice j) with
  | some j => ((j : Int), none)
  | none => (i, some ("String: " ++ s ++ " is not a valid option for type: Flags"))

/-- The `ki.Flags` type as an `EnumType`: short name `ki.Flags`, with the
stringer capability above (so `MethodByName` finds `FromString`). -/
def FlagsType : EnumType :=
  ⟨"ki.Flags", FlagsString, FlagsFromString, true⟩


/-! ## The enum registry, from `src/kit/enums.go` -/

/-- A value stored in a type's property map (`map[string]interface{}`).
The registry only ever stores `"N" : int64`, `"BitFlag" : bool` and
`"AltStrings" : map[int64]string`. -/
inductive PropVal where
  | int (i : Int)
  | bool (b : Bool)
  | altStrings (m : List (Int × String))
deriving DecidableEq

/-- A per-type property map (`map[string]interface{}`). -/
def PropMap : Type :=
  List (String × PropVal)

/-- `kit.EnumRegistry` (`src/kit/enums.go` lines 81-93): the three
co-indexed maps keyed by short type name. -/
structure EnumRegistry where
  Enums : List (String × EnumType)
  Props : List (String × PropMap)
  Vals : List (String × List (String × Int × EnumType))

/-- The empty registry (the zero value of `kit.Enums`; `AddEnum` lazily
makes the nil maps, which in the model are empty lists from the start). -/
def emptyRegistry : EnumRegistry :=
  ⟨[], [], []⟩

/-- `(*EnumRegistry).Properties` (`src/kit/enums.go` lines 173-180): the
props map for the name, creating (and storing) an empty one on a miss.
Go returns an alias into the registry; the pure model returns the map
together with the possibly-extended registry, and callers write their
mutations back. -/
def RegProperties (tr : EnumRegistry) (enumName : String) :
    EnumRegistry × PropMap :=
  match mapLookup tr.Props enumName with
  | some tp => (tr, tp)
  | none => ({ tr with Props := mapInsert tr.Props enumName [] }, [])

/-- `(*EnumRegistry).Prop` (`src/kit/enums.go` lines 184-196; named
`RegProp` because `Prop` is a Lean keyword): property lookup, nil on
either miss. -/
def RegProp (tr : EnumRegistry) (enumName propKey : String) : Option PropVal :=
  match mapLookup tr.Props enumName with
  | none => none
  | some tp => mapLookup tp propKey

/-- `(*EnumRegistry).AltStrings` (`src/kit/enums.go` lines 203-214): the
`AltStrings` property if present and of the map type, else nil (the
mis-typed case logs and returns nil). -/
def RegAltStrings (tr : EnumRegistry) (enumName : String) :
    Option (List (Int × String)) :=
  match RegProp tr enumName "AltStrings" with
  | some (.altStrings m) => some m
  | some _ => none
  | none => none

/-- `kit.ToInt` applied to a property value as `NVals` does
(`n, _ := ToInt(...)`, error discarded).  `ToInt` itself lives outside
`src/`; modelled from the spec and its use here: coerce to `int64`,
yielding 0 on nil/failure.  Only the `int` case is ever exercised, since
`"N"` is always stored as an `int64`. -/
def ToIntOrZero (v : Option PropVal) : Int :=
  match v with
  | some (.int n) => n
  | some (.bool b) => if b then 1 else 0
  | _ => 0

/-- `kit.ToBool` applied to a property value as `IsBitFlag` does
(`b, _ := ToBool(...)`, error discarded).  Modelled from the spec like
`ToIntOrZero`: nil/failure yields false.  Only the `bool` case is ever
exercised, since `"BitFlag"` is always stored as a `bool`. -/
def ToBoolOrFalse (v : Option PropVal) : Bool :=
  match v with
  | some (.bool b) => b
  | some (.int n) => n ≠ 0
  | _ => false

/-- `(*EnumRegistry).NVals` (`src/kit/enums.go` lines 217-221): the `"N"`
property of the value's type, 0 when unregistered. -/
def NVals (tr : EnumRegistry) (eval : EnumVal) : Int :=
  ToIntOrZero (RegProp tr (ShortTypeName eval.typ) "N")

/-- `(*EnumRegistry).IsBitFlag` (`src/kit/enums.go` lines 226-229): the
`"BitFlag"` property, false when absent. -/
def IsBitFlag (tr : EnumRegistry) (typ : EnumType) : Bool :=
  ToBoolOrFalse (RegProp tr (ShortTypeName typ) "BitFlag")

/-- The copy of a caller-supplied props map made by `AddEnum`
(`src/kit/enums.go` lines 116-121).  In the pure model a copy is the map
itself. -/
def propsCopy (props : PropMap) : PropMap :=
  props

/-- `(*EnumRegistry).AddEnum` (`src/kit/enums.go` lines 103-136).  `en` is
the type's `N` sentinel value; `typ` is its (non-pointer) type and
`n = EnumIfaceToInt64(en)`.  Stores the type under its short name; copies
`props` into `Props[snm]` only when non-nil (a nil `props` leaves any
previous map in place); then sets `"N"` and, when `bitFlag`, `"BitFlag"`
in the (aliased) props map — the write-backs below model Go's map
aliasing.  `n >= 64` for a bit flag only logs a warning; no state
change. -/
def AddEnum (tr : EnumRegistry) (en : EnumVal) (bitFlag : Bool)
    (props : Option PropMap) : EnumRegistry × EnumType :=
  let typ := en.typ
  let n := EnumIfaceToInt64 en
  let snm := ShortTypeName typ
  let tr1 := { tr with Enums := mapInsert tr.Enums snm typ }
  let tr2 :=
    match props with
    | some ps => { tr1 with Props := mapInsert tr1.Props snm (propsCopy ps) }
    | none => tr1
  let pr := RegProperties tr2 snm
  let tr3 := pr.1
  let tp := mapInsert pr.2 "N" (.int n)
  let tr4 := { tr3 with Props := mapInsert tr3.Props snm tp }
  if bitFlag then
    let pr2 := RegProperties tr4 snm
    let tr5 := pr2.1
    let tp2 := mapInsert pr2.2 "BitFlag" (.bool true)
    ({ tr5 with Props := mapInsert tr5.Props snm tp2 }, typ)
  else
    (tr4, typ)

/-- `strings.ToLower(s)`: ASCII lower-casing via the character list (the
names here are ASCII, where Go's Unicode lowering and `Char.toLower`
agree).  Defined on `s.data` so concrete registrations evaluate inside
the kernel. -/
def strToLower (s : String) : String :=
  ⟨s.data.map Char.toLower⟩

/-- `strings.TrimPrefix(s, pfx)`: drop `pfx` from the start of `s` when it
is there, else `s` unchanged.  (Char-counted drop; the inputs here are
ASCII, where chars and Go bytes coincide.) -/
def trimPfx (s pfx : String) : String :=
  if pfx.data.isPrefixOf s.data then ⟨s.data.drop pfx.data.length⟩ else s

/-- `(*EnumRegistry).AddEnumAltLower` (`src/kit/enums.go` lines 143-156):
`AddEnum`, then an `AltStrings` table mapping each ordinal `i` in `[0, n)`
to `strings.ToLower(strings.TrimPrefix(EnumInt64ToString(i, typ), pfx))`. -/
def AddEnumAltLower (tr : EnumRegistry) (en : EnumVal) (bitFlag : Bool)
    (props : Option PropMap) (pfx : String) : EnumRegistry × EnumType :=
  let r := AddEnum tr en bitFlag props
  let tr1 := r.1
  let typ := r.2
  let n := EnumIfaceToInt64 en
  let snm := ShortTypeName typ
  let alts := (List.range n.toNat).map
    (fun i => ((i : Int), strToLower (trimPfx (EnumInt64ToString (i : Int) typ) pfx)))
  let pr := RegProperties tr1 snm
  let tp := mapInsert pr.2 "AltStrings" (.altStrings alts)
  ({ pr.1 with Props := mapInsert pr.1.Props snm tp }, typ)

/-! ## Conversion from string, from `src/kit/enums.go` -/

/-- `kit.SetEnumValueFromString` (`src/kit/enums.go` lines 342-363).
`isPtr` models whether the `reflect.Value` is a pointer; `eval` is the
pointed-to ordinal.  After the pointer and method-existence checks the Go
code calls the stringer-generated `FromString` method with
`meth.Call(args)` and DISCARDS its returned error, returning nil
unconditionally: the model keeps the method's effect on the receiver
(`.1`) and drops its error (`.2`). -/
def SetEnumValueFromString (et : EnumType) (isPtr : Bool) (eval : Int)
    (str : String) : Int × Option String :=
  if !isPtr then
    (eval, some "kit.SetEnumValueFromString -- you must pass a pointer enum")
  else if !et.hasFromString then
    (eval, some "kit.SetEnumValueFromString: stringer-generated FromString() method not found")
  else
    ((et.fromStr eval str).1, none)

/-- `kit.SetEnumIfaceFromString` (`src/kit/enums.go` lines 368-370):
delegates to `SetEnumValueFromString` on `reflect.ValueOf(eptr)`. -/
def SetEnumIfaceFromString (et : EnumType) (isPtr : Bool) (eval : Int)
    (str : String) : Int × Option String :=
  SetEnumValueFromString et isPtr eval str

/-! ## BitFlag codec, from `src/kit/enums.go` -/

/-- The loop of `kit.BitFlagsToString` (`src/kit/enums.go` lines 437-446):
for each `i` with bit `i` of `bflg` set, append the canonical name,
with `|` between an already non-empty accumulator and the next name. -/
def bitFlagsToStringLoop (bflg : Int) (et : EnumType) :
    List Nat → String → String
  | [], str => str
  | i :: rest, str =>
    if bitflagHas bflg i then
      let evs := EnumInt64ToString (i : Int) et
      bitFlagsToStringLoop bflg et rest (if str = "" then evs else str ++ "|" ++ evs)
    else
      bitFlagsToStringLoop bflg et rest str

/-- `kit.BitFlagsToString` (`src/kit/enums.go` lines 433-448): `en` is the
type's `N` sentinel, giving both the element type and the loop bound
`n = int(EnumIfaceToInt64(en))`. -/
def BitFlagsToString (bflg : Int) (en : EnumVal) : String :=
  let et := en.typ
  let n := (EnumIfaceToInt64 en).toNat
  bitFlagsToStringLoop bflg et (List.range n) ""

/-- Character-level worker for `splitBar`: accumulate the current segment
(in reverse) until a `|`. -/
def splitBarChars : List Char → List Char → List String
  | [], acc => [String.mk acc.reverse]
  | c :: rest, acc =>
    if c = '|' then String.mk acc.reverse :: splitBarChars rest []
    else splitBarChars rest (c :: acc)

/-- `strings.Split(s, "|")`, the only split the Go code performs: cut `s`
at every `|`; the empty string yields `[""]`, like Go.  (Equivalent to
`String.splitOn s "|"`; defined by structural recursion on the character
list so that concrete decodes evaluate inside the kernel.) -/
def splitBar (s : String) : List String :=
  splitBarChars s.data []


/-- The loop of `kit.BitFlagsTypeFromString` (`src/kit/enums.go` lines
465-471).  `evv` is the scratch enum value `reflect.New(et)` allocated
once before the loop — it carries the PREVIOUS segment's value into later
iterations; `err` is overwritten each iteration (`err = SetEnum...`) and
the final one is returned; a segment's bit is ORed in only when that
iteration's `err` is nil. -/
def bitFlagsFromStringLoop (et : EnumType) :
    List String → Int → Int → Option String → Int × Option String
  | [], _, bflg, err => (bflg, err)
  | flg :: rest, evv, bflg, _ =>
    let r := SetEnumValueFromString et true evv flg
    let evv2 := r.1
    let err2 := r.2
    let bflg2 :=
      if err2 = none then bitflagSet bflg (EnumIfaceToInt64 ⟨et, evv2⟩).toNat
      else bflg
    bitFlagsFromStringLoop et rest evv2 bflg2 err2

/-- `kit.BitFlagsTypeFromString` (`src/kit/enums.go` lines 461-473): split
the input on `|` (Go's `strings.Split`, see `splitBar`, yields `[""]` for
the empty string) and run the loop; `n` is unused by the Go body and kept
for signature fidelity. -/
def BitFlagsTypeFromString (bflg : Int) (str : String) (et : EnumType)
    (n : Int) : Int × Option String :=
  let _ := n
  bitFlagsFromStringLoop et (splitBar str) 0 bflg none

/-! ## EnumValue catalog, from `src/kit/enums.go` -/

/-- `kit.EnumValue` (`src/kit/enums.go` lines 528-532), as the triple
(Name, Value, Type); the model keeps it as a nested pair so lists of them
are built with plain tuples. -/
def mkEnumValue (name : String) (val : Int) (typ : EnumType) :
    String × Int × EnumType :=
  (name, val, typ)

/-- A stand-in for the nil `reflect.Type` that `tr.Enums[enumName]` yields
for an unregistered name.  Go panics as soon as such a type is used to
build a value; theorems about `Values` therefore carry a registration
hypothesis and never reach this default. -/
def nilEnumType : EnumType :=
  ⟨"", fun _ => "", fun i _ => (i, some "nil type"), false⟩

/-- `(*EnumRegistry).Values` (`src/kit/enums.go` lines 548-566): return
the cached list when present — the cache is keyed by `enumName` ALONE,
ignoring `alt`.  Otherwise build: for each `i` in `[0, n)` the canonical
string, replaced by `alts[i]` (Go map read, "" on a missing key) when
`alt` is set and an `AltStrings` table exists; then cache and return.
An unregistered name panics in Go at the `"N"` type assertion; the model
returns `n = 0` there (see `nilEnumType`). -/
def Values (tr : EnumRegistry) (enumName : String) (alt : Bool) :
    EnumRegistry × List (String × Int × EnumType) :=
  match mapLookup tr.Vals enumName with
  | some vals => (tr, vals)
  | none =>
    let alts := RegAltStrings tr enumName
    let et := (mapLookup tr.Enums enumName).getD nilEnumType
    let n := ToIntOrZero (RegProp tr enumName "N")
    let vals := (List.range n.toNat).map (fun i =>
      let str := EnumInt64ToString (i : Int) et
      let str :=
        if alt ∧ alts ≠ none then ((imapLookup (alts.getD []) (i : Int)).getD "")
        else str
      mkEnumValue str (i : Int) et)
    ({ tr with Vals := mapInsert tr.Vals enumName vals }, vals)

/-! ## Fixtures: `kit.TestFlags` and the spec §8.5 example type -/

/-- First-match scan of a canonical-name table, the shape every
stringer-generated `FromString` has (compare `FlagsFromString`): sets the
receiver to the first matching index, else leaves it and errors. -/
def stringerFromString (names : List String) (tn : String) (i : Int)
    (s : String) : Int × Option String :=
  match (List.range names.length).find? (fun j => s = names.getD j "") with
  | some j => ((j : Int), none)
  | none => (i, some ("String: " ++ s ++ " is not a valid option for type: " ++ tn))

/-- Modelled from the spec: the canonical names of `kit.TestFlags`.  The
const block (`src/kit/enums.go` lines 652-657) declares
`TestFlagsNil, TestFlag1, TestFlag2, TestFlagsN`; its stringer-generated
conversion file is part of the repository but not under `src/`, and the
spec gives the canonical names as `TestFlagsNil, TestFlag1, TestFlag2`. -/
def _TestFlags_names : List String :=
  ["TestFlagsNil", "TestFlag1", "TestFlag2"]

/-- Modelled from the spec: `(TestFlags).String` per the external
stringify contract (spec §6) — canonical name in range, fallback
`"TestFlags(<i>)"` outside. -/
def TestFlagsString (i : Int) : String :=
  if 0 ≤ i ∧ i < 3 then _TestFlags_names.getD i.toNat ""
  else "TestFlags(" ++ toString i ++ ")"

/-- Modelled from the spec: `(*TestFlags).FromString` per the external
parse contract (spec §6) — case-sensitive first match, receiver unchanged
plus error on unknown input. -/
def TestFlagsFromString (i : Int) (s : String) : Int × Option String :=
  stringerFromString _TestFlags_names "TestFlags" i s

/-- `kit.TestFlags` as an `EnumType` (short name `kit.TestFlags`). -/
def TestFlagsType : EnumType :=
  ⟨"kit.TestFlags", TestFlagsString, TestFlagsFromString, true⟩

/-- `KiT_TestFlags = Enums.AddEnumAltLower(TestFlagsN, false, nil, "Test")`
(`src/kit/enums.go` line 661), run against the empty registry:
`TestFlagsN = 3`. -/
def testFlagsRegistry : EnumRegistry :=
  (AddEnumAltLower emptyRegistry ⟨TestFlagsType, 3⟩ false none "Test").1

/-- The spec §8.5 example bit-flag type: ordinals
`0:"Nil", 1:"FlagA", 2:"FlagB"`, `N = 3`. -/
def _Example_names : List String :=
  ["Nil", "FlagA", "FlagB"]

/-- Stringify for the §8.5 example type (external capability contract,
spec §6). -/
def ExampleString (i : Int) : String :=
  if 0 ≤ i ∧ i < 3 then _Example_names.getD i.toNat ""
  else "ExampleFlags(" ++ toString i ++ ")"

/-- Parse for the §8.5 example type (external capability contract,
spec §6). -/
def ExampleFromString (i : Int) (s : String) : Int × Option String :=
  stringerFromString _Example_names "ExampleFlags" i s

/-- The §8.5 example type as an `EnumType`. -/
def ExampleFlagsType : EnumType :=
  ⟨"kit.ExampleFlags", ExampleString, ExampleFromString, true⟩



/-- The tail of a `|`-joined list: `"|" ++ nm` for each element.  Helper
for relating the encode loop to `specJoinBar`. -/
def tailJoin : List String → String
  | [] => ""
  | nm :: rest => "|" ++ nm ++ tailJoin rest

/-- Written from the spec's words for the bit-flag encoding (§4.2/§8.3):
"joining set names with `|` in ascending ordinal order (empty set yields
the empty string)" — a plain `|`-separated join, to be compared with the
source-derived `BitFlagsToString`. -/
def specJoinBar : List String → String
  | [] => ""
  | [nm] => nm
  | nm :: rest => nm ++ "|" ++ specJoinBar rest


/-- The canonical names of the ordinals in `L` whose bit is set in
`bflg`, in the order of `L` — the list whose `|`-join the spec says the
bit-flag encoding produces. -/
def setBitNames (bflg : Int) (et : EnumType) (L : List Nat) : List String :=
  (L.filter (fun i => bitflagHas bflg i)).map
    (fun (i : Nat) => EnumInt64ToString (i : Int) et)

/-! ## Helper lemmas -/

/-- Appending the empty string on the right is the identity. -/
theorem strAppendEmpty (a : String) : a ++ "" = a := by
  cases a with
  | mk d => show String.mk (d ++ []) = String.mk d; rw [List.append_nil]

/-- String concatenation is associative. -/
theorem strAppendAssoc (a b c : String) : a ++ b ++ c = a ++ (b ++ c) := by
  cases a with
  | mk d =>
    cases b with
    | mk e =>
      cases c with
      | mk f => show String.mk (d ++ e ++ f) = String.mk (d ++ (e ++ f))
                rw [List.append_assoc]

/-- A string with a `|` in the middle is not empty. -/
theorem strBarNe (a b : String) : a ++ "|" ++ b ≠ "" := by
  cases a with
  | mk d =>
    cases b with
    | mk e =>
      show String.mk (d ++ ['|'] ++ e) ≠ String.mk []
      intro h
      have h2 : d ++ ['|'] ++ e = [] := congrArg String.data h
      simp at h2

/-- The 17 canonical `Flags` names are pairwise distinct. -/
theorem flagsSliceInj :
    ∀ j : Nat, j < 17 → ∀ k : Nat, k < 17 → flagsSlice j = flagsSlice k → j = k := by
  decide

/-- `len(_Flags_index) - 1 = 17`: the `Flags` value count. -/
theorem flagsIndexLen : _Flags_index.length - 1 = 17 := by
  decide

/-- For every in-range ordinal, the `FromString` scan finds exactly that
ordinal when fed its own canonical name. -/
theorem flagsFindOwnName :
    ∀ i : Nat, i < 17 →
      (List.range (_Flags_index.length - 1)).find?
          (fun j => FlagsString (i : Int) = flagsSlice j) = some i := by
  decide

/-! ## Claim theorems -/

/-- C5: for every registered scalar ordinal `i` in `[0, 17)` of the
`Flags` type, parsing the canonical stringification of `i` yields `i`
back: `(*Flags).FromString(Flags(i).String())` sets the receiver to `i`
and returns nil, whatever the receiver held before. -/
theorem C5_scalar_roundtrip :
    ∀ i : Nat, i < 17 → ∀ old : Int,
      FlagsFromString old (FlagsString (i : Int)) = ((i : Int), none) := by
  intro i hi old
  unfold FlagsFromString
  rw [flagsFindOwnName i hi]

/-- Witness for C5 at ordinal 3 (`"Updating"`), receiver previously 9. -/
theorem C5_witness :
    FlagsFromString 9 (FlagsString 3) = (3, none) :=
  C5_scalar_roundtrip 3 (by decide) 9

/-- C8: stringifying any out-of-range `Flags` ordinal yields the fallback
`"Flags(<i>)"` (in particular `"Flags(17)"` for 17), and parsing
`"Flags(17)"` returns the unknown-name error without touching the
receiver: fallback strings are never accepted by `FromString`. -/
theorem C8_fallback_not_parseable :
    (∀ i : Int, i < 0 ∨ 17 ≤ i → FlagsString i = "Flags(" ++ toString i ++ ")")
    ∧ FlagsString 17 = "Flags(17)"
    ∧ (∀ old : Int,
        FlagsFromString old "Flags(17)" =
          (old, some "String: Flags(17) is not a valid option for type: Flags")) := by
  have hl : ((_Flags_index.length - 1 : Nat) : Int) = 17 := by decide
  refine ⟨?_, by decide, ?_⟩
  · intro i hi
    unfold FlagsString
    rw [hl, if_pos hi]
  · intro old
    unfold FlagsFromString
    have hnone : (List.range (_Flags_index.length - 1)).find?
        (fun j => "Flags(17)" = flagsSlice j) = none := by decide
    rw [hnone]
    rfl

/-- Witness for C8 at the out-of-range ordinals 17 and -3 and at the
fallback string `"Flags(17)"` with receiver 2. -/
theorem C8_witness :
    FlagsString (-3) = "Flags(-3)"
    ∧ FlagsFromString 2 "Flags(17)" =
        (2, some "String: Flags(17) is not a valid option for type: Flags") :=
  ⟨(C8_fallback_not_parseable.1 (-3) (by decide)).trans (by decide),
   C8_fallback_not_parseable.2.2 2⟩

/-- C10: `(*Flags).FromString` is atomic — for a string equal to none of
the 17 canonical names it returns the non-nil "not a valid option" error
and leaves the receiver unchanged; for a string equal to a canonical name
it sets the receiver to that name's ordinal and returns nil. -/
theorem C10_fromstring_atomic (old : Int) (s : String) :
    ((∀ j : Nat, j < 17 → s ≠ flagsSlice j) →
      FlagsFromString old s =
        (old, some ("String: " ++ s ++ " is not a valid option for type: Flags")))
    ∧ (∀ j : Nat, j < 17 → s = flagsSlice j →
      FlagsFromString old s = ((j : Int), none)) := by
  constructor
  · intro hne
    unfold FlagsFromString
    have hnone : (List.range (_Flags_index.length - 1)).find?
        (fun j => s = flagsSlice j) = none := by
      apply List.find?_eq_none.mpr
      intro x hx
      rw [List.mem_range, flagsIndexLen] at hx
      simpa using hne x hx
    rw [hnone]
  · intro j hj hs
    rcases hfind : (List.range (_Flags_index.length - 1)).find?
        (fun k => s = flagsSlice k) with _ | k
    · exfalso
      have hj' : j ∈ List.range (_Flags_index.length - 1) := by
        rw [List.mem_range, flagsIndexLen]; exact hj
      have := List.find?_eq_none.mp hfind j hj'
      simp only [decide_eq_true_eq] at this
      exact this hs
    · have hk : s = flagsSlice k := by
        have := List.find?_some hfind
        simpa using this
      have hkmem : k ∈ List.range (_Flags_index.length - 1) :=
        List.mem_of_find?_eq_some hfind
      rw [List.mem_range, flagsIndexLen] at hkmem
      have hjk : j = k := flagsSliceInj j hj k hkmem (hs.symm.trans hk)
      unfold FlagsFromString
      rw [hfind, hjk]

/-- Witness for C10: the non-name `"Bogus"` errors and leaves the receiver
at 5; the canonical name `"NodeMoved"` (ordinal 7) parses. -/
theorem C10_witness :
    FlagsFromString 5 "Bogus" =
      (5, some "String: Bogus is not a valid option for type: Flags")
    ∧ FlagsFromString 5 "NodeMoved" = (7, none) :=
  ⟨by simpa using (C10_fromstring_atomic 5 "Bogus").1 (by decide),
   (C10_fromstring_atomic 5 "NodeMoved").2 7 (by decide) (by decide)⟩

/-- C1 (code bug, evaluated at the failing input): the registry-level
from-string conversion silently substitutes success for a conversion
failure.  For the registered non-bit-flag `ki.Flags` type and the input
`"Bogus"` (which matches no canonical name), `SetEnumValueFromString` and
`SetEnumIfaceFromString` return a NIL error and leave the value untouched
— `meth.Call(args)` at `src/kit/enums.go` line 360 discards the error the
stringer-generated `FromString` reports (third conjunct), and line 362
returns nil unconditionally. -/
theorem C1_error_silently_dropped :
    SetEnumValueFromString FlagsType true 0 "Bogus" = (0, none)
    ∧ SetEnumIfaceFromString FlagsType true 0 "Bogus" = (0, none)
    ∧ (FlagsFromString 0 "Bogus").2.isSome = true := by
  decide

/-- C2 counterexample: for the spec §8.5 bit-flag type
(`0:"Nil", 1:"FlagA", 2:"FlagB"`, N = 3), decoding `"FlagA|Bogus"` from an
accumulator of 0 returns a NIL error (not `UnknownName`) and changes the
accumulator (bit 1 is applied) — both halves of the claim fail. -/
theorem C2_counterexample :
    (BitFlagsTypeFromString 0 "FlagA|Bogus" ExampleFlagsType 3).2 = none
    ∧ (BitFlagsTypeFromString 0 "FlagA|Bogus" ExampleFlagsType 3).1 ≠ 0 := by
  decide

/-- C2 as amended: decoding `"FlagA|Bogus"` yields accumulator `0b010`
(FlagA's bit applied, so successfully parsed segments ARE applied on a
failing decode) with a nil returned error, because the per-segment setter
discards the parse error `"Bogus"` genuinely produces (second
conjunct). -/
theorem C2_amended_partial_decode :
    BitFlagsTypeFromString 0 "FlagA|Bogus" ExampleFlagsType 3 = (2, none)
    ∧ (ExampleFromString 0 "Bogus").2.isSome = true := by
  decide

/-- C9: registering `TestFlags` via
`AddEnumAltLower(TestFlagsN, false, nil, "Test")` (the `KiT_TestFlags`
registration, `src/kit/enums.go` line 661) stores an `AltStrings` table
mapping the ordinals 0, 1, 2 to the lower-cased, `"Test"`-stripped
canonical names: `flagsnil`, `flag1`, `flag2`. -/
theorem C9_testflags_altstrings :
    RegAltStrings testFlagsRegistry "kit.TestFlags" =
      some [(0, "flagsnil"), (1, "flag1"), (2, "flag2")] := by
  decide

/-- C3 counterexample: after `AddEnum` twice for the same type name,
first with `bitFlag = true` and then with `bitFlag = false` (both with
nil props), `IsBitFlag` does NOT return the latest registration's value:
the `BitFlag = true` property from the first registration survives,
because a nil `props` argument leaves the previously stored property map
in place and `bitFlag = false` writes nothing. -/
theorem C3_counterexample :
    ¬ (IsBitFlag
        (AddEnum (AddEnum emptyRegistry ⟨ExampleFlagsType, 3⟩ true none).1
          ⟨ExampleFlagsType, 3⟩ false none).1 ExampleFlagsType = false) := by
  decide

/-- C3 as amended: re-registering the same type name always overwrites the
`"N"` property, so `NVals` reflects the latest registration; and when the
second registration passes a non-nil props map the stored property map is
replaced, so `IsBitFlag` reflects the latest registration.  But when the
second registration passes nil props, the previously stored property map
is retained (only `"N"` is re-set), so a `BitFlag = true` from the first
registration persists even though the latest registration said
`bitFlag = false`. -/
theorem C3_amended_reregistration (tr : EnumRegistry) (en : EnumVal) :
    (IsBitFlag (AddEnum (AddEnum tr en true none).1 en false none).1 en.typ = true
      ∧ NVals (AddEnum (AddEnum tr en true none).1 en false none).1 en
          = EnumIfaceToInt64 en)
    ∧ (IsBitFlag (AddEnum (AddEnum tr en true none).1 en false (some [])).1 en.typ = false
      ∧ NVals (AddEnum (AddEnum tr en true none).1 en false (some [])).1 en
          = EnumIfaceToInt64 en) := by
  rcases h : mapLookup tr.Props (ShortTypeName en.typ) with _ | tp0 <;>
    simp [AddEnum, RegProperties, mapInsert, mapLookup, IsBitFlag, NVals,
      RegProp, ToBoolOrFalse, ToIntOrZero, EnumIfaceToInt64, ShortTypeName,
      propsCopy, h]

/-- C4 counterexample: the encode/decode roundtrip fails for the EMPTY
subset.  For the spec §8.5 bit-flag type, encoding the empty bit pattern
yields `""`, but decoding `""` does not reproduce 0: `strings.Split`
turns `""` into one empty segment, the per-segment setter drops the parse
error that segment produces, and the scratch value's bit (ordinal 0) is
ORed in, yielding accumulator 1. -/
theorem C4_counterexample :
    BitFlagsToString 0 ⟨ExampleFlagsType, 3⟩ = ""
    ∧ (BitFlagsTypeFromString 0 (BitFlagsToString 0 ⟨ExampleFlagsType, 3⟩)
        ExampleFlagsType 3).1 ≠ 0 := by
  decide

/-- C4 as amended: for the spec §8.5 bit-flag type (N = 3), the roundtrip
`Decode(Encode(bits)) = (bits, nil)` holds for every NON-EMPTY subset of
the ordinals `[0, 3)` (bit patterns `1 ≤ b < 8`); for the empty subset
the decode of the encoding erroneously produces bit pattern 1 (with a nil
error) instead of 0. -/
theorem C4_amended_roundtrip :
    (∀ b : Nat, b < 8 → b ≠ 0 →
      BitFlagsTypeFromString 0 (BitFlagsToString (b : Int) ⟨ExampleFlagsType, 3⟩)
        ExampleFlagsType 3 = ((b : Int), none))
    ∧ BitFlagsTypeFromString 0 (BitFlagsToString 0 ⟨ExampleFlagsType, 3⟩)
        ExampleFlagsType 3 = (1, none) := by
  decide

/-- Witness for C4 at the subset `{1, 2}` (bit pattern 6,
`"FlagA|FlagB"`). -/
theorem C4_witness :
    BitFlagsTypeFromString 0 (BitFlagsToString (6 : Int) ⟨ExampleFlagsType, 3⟩)
      ExampleFlagsType 3 = ((6 : Int), none) :=
  C4_amended_roundtrip.1 6 (by decide) (by decide)


/-- `setBitNames` on a cons: keep the head's name iff its bit is set. -/
theorem setBitNamesCons (bflg : Int) (et : EnumType) (i : Nat) (rest : List Nat) :
    setBitNames bflg et (i :: rest) =
      if bitflagHas bflg i then
        EnumInt64ToString (i : Int) et :: setBitNames bflg et rest
      else setBitNames bflg et rest := by
  rcases hb : bitflagHas bflg i with _ | _ <;>
    simp [setBitNames, List.filter_cons, hb]

/-- `specJoinBar` in head/tail form. -/
theorem specJoinBarCons :
    ∀ (l : List String) (a : String), specJoinBar (a :: l) = a ++ tailJoin l := by
  intro l
  induction l with
  | nil =>
    intro a
    show a = a ++ ""
    rw [strAppendEmpty]
  | cons b r ih =>
    intro a
    show a ++ "|" ++ specJoinBar (b :: r) = a ++ ("|" ++ b ++ tailJoin r)
    rw [ih b]
    simp only [strAppendAssoc]

/-- The encode loop with a non-empty accumulator appends `"|" ++ name`
for each remaining set bit. -/
theorem bitFlagsToStringLoopAcc (bflg : Int) (et : EnumType) :
    ∀ (L : List Nat) (str : String), str ≠ "" →
      bitFlagsToStringLoop bflg et L str = str ++ tailJoin (setBitNames bflg et L) := by
  intro L
  induction L with
  | nil =>
    intro str _
    show str = str ++ ""
    rw [strAppendEmpty]
  | cons i rest ih =>
    intro str hstr
    rcases hb : bitflagHas bflg i with _ | _
    · simp only [bitFlagsToStringLoop, hb, Bool.false_eq_true, if_false, setBitNamesCons]
      exact ih str hstr
    · simp only [bitFlagsToStringLoop, hb, if_true, if_neg hstr, setBitNamesCons]
      rw [ih (str ++ "|" ++ EnumInt64ToString (i : Int) et)
          (strBarNe str (EnumInt64ToString (i : Int) et))]
      show _ = str ++ ("|" ++ EnumInt64ToString (i : Int) et
        ++ tailJoin (setBitNames bflg et rest))
      simp only [strAppendAssoc]

/-- The encode loop from the empty accumulator is exactly the `|`-join of
the set bits' names, provided those names are non-empty. -/
theorem bitFlagsToStringLoopJoin (bflg : Int) (et : EnumType) :
    ∀ L : List Nat, (∀ nm ∈ setBitNames bflg et L, nm ≠ "") →
      bitFlagsToStringLoop bflg et L "" = specJoinBar (setBitNames bflg et L) := by
  intro L
  induction L with
  | nil => intro _; rfl
  | cons i rest ih =>
    intro hne
    rcases hb : bitflagHas bflg i with _ | _
    · simp only [setBitNamesCons, hb, Bool.false_eq_true, if_false] at hne ⊢
      simp only [bitFlagsToStringLoop, hb, Bool.false_eq_true, if_false]
      exact ih hne
    · simp only [setBitNamesCons, hb, if_true] at hne ⊢
      simp only [bitFlagsToStringLoop, hb, if_true]
      have hev : EnumInt64ToString (i : Int) et ≠ "" :=
        hne _ (List.mem_cons_self _ _)
      rw [bitFlagsToStringLoopAcc bflg et rest _ hev, specJoinBarCons]

/-- C6: for every bit pattern and count, `BitFlagsToString` produces the
canonical names of exactly the set bits among ordinals `0..N-1`, joined
with `|` (`specJoinBar`, written from the spec's words) over the
ascending-filtered ordinal list — which is strictly ascending with no
duplicate names — and produces the empty string when no bit in `[0, N)`
is set.  The hypotheses record the capability contract the claim
presupposes: canonical names of set bits are non-empty (`hne`; an empty
first name would be swallowed by the accumulator's emptiness test) and
distinct (`hinj`, for the no-duplicates conjunct); both hold for every
actual stringer-generated enum. -/
theorem C6_encode_shape (bflg : Int) (en : EnumVal)
    (hne : ∀ nm ∈ setBitNames bflg en.typ (List.range (EnumIfaceToInt64 en).toNat), nm ≠ "")
    (hinj : ∀ i ∈ (List.range (EnumIfaceToInt64 en).toNat).filter (fun i => bitflagHas bflg i),
      ∀ j ∈ (List.range (EnumIfaceToInt64 en).toNat).filter (fun i => bitflagHas bflg i),
        EnumInt64ToString (i : Int) en.typ = EnumInt64ToString (j : Int) en.typ → i = j) :
    BitFlagsToString bflg en =
        specJoinBar (setBitNames bflg en.typ (List.range (EnumIfaceToInt64 en).toNat))
    ∧ List.Sorted (· < ·)
        ((List.range (EnumIfaceToInt64 en).toNat).filter (fun i => bitflagHas bflg i))
    ∧ (setBitNames bflg en.typ (List.range (EnumIfaceToInt64 en).toNat)).Nodup
    ∧ ((List.range (EnumIfaceToInt64 en).toNat).filter (fun i => bitflagHas bflg i) = [] →
        BitFlagsToString bflg en = "") := by
  have h1 : BitFlagsToString bflg en =
      specJoinBar (setBitNames bflg en.typ (List.range (EnumIfaceToInt64 en).toNat)) :=
    bitFlagsToStringLoopJoin bflg en.typ (List.range (EnumIfaceToInt64 en).toNat) hne
  refine ⟨h1, ?_, ?_, ?_⟩
  · exact (List.sorted_lt_range _).filter _
  · exact List.Nodup.map_on hinj ((List.nodup_range _).filter _)
  · intro hemp
    rw [h1]
    simp only [setBitNames, hemp, List.map_nil]
    rfl

/-- Witness for C6 at bit pattern 5 (`{0, 2}`) of the 17-value `Flags`
type: the encode is the `|`-join of `IsField` and `HasNoKiFields`. -/
theorem C6_witness :
    BitFlagsToString 5 ⟨FlagsType, 17⟩ =
      specJoinBar (setBitNames 5 FlagsType
        (List.range (EnumIfaceToInt64 ⟨FlagsType, 17⟩).toNat))
    ∧ BitFlagsToString 5 ⟨FlagsType, 17⟩ = "IsField|HasNoKiFields" :=
  ⟨(C6_encode_shape 5 ⟨FlagsType, 17⟩ (by decide) (by decide)).1, by decide⟩

/-- C7: the `EnumValue` catalog is built once and cached keyed by type
name alone, ignoring the alternate-names flag: after a first call
`Values(name, a)`, a later call `Values(name, b)` — for either flag value
`b` — returns the first-built list unchanged (and leaves the registry
unchanged).  The hypotheses record that the name is registered with an
integer `"N"` property (an unregistered name panics in Go at the `"N"`
type assertion, so the claim only speaks of registered names); they are
not otherwise used. -/
theorem C7_values_cached (tr : EnumRegistry) (enumName : String) (a b : Bool)
    (hreg : (mapLookup tr.Enums enumName).isSome = true)
    (hN : ∃ n : Int, RegProp tr enumName "N" = some (.int n)) :
    Values (Values tr enumName a).1 enumName b = Values tr enumName a := by
  clear hreg hN
  rcases h : mapLookup tr.Vals enumName with _ | vals
  · simp only [Values, h]
    simp [mapInsert, mapLookup]
  · simp only [Values, h]

/-- Witness for C7 on the registry holding `TestFlags`: the first call
with `alt = true` fixes the list also returned by a later call with
`alt = false`. -/
theorem C7_witness :
    Values (Values testFlagsRegistry "kit.TestFlags" true).1 "kit.TestFlags" false
      = Values testFlagsRegistry "kit.TestFlags" true :=
  C7_values_cached testFlagsRegistry "kit.TestFlags" true false (by decide)
    ⟨3, by decide⟩
